import Mathlib

/-!
# Verification of the railnet captive-portal form parser

Shallow embedding of the streaming line reassembler and the field-extraction
state machine of `src/main.cpp` (functions `checkLineBuffer`,
`parseResponseBufferIntoLineBuffer`, the lambda `findValueField`, the reset
code in `clearFormInformation` and in the `WIFI_CONNECTED` branch of `loop`).

Lines and byte chunks are modelled as `List Char`; `std::optional<std::string>`
becomes `Option (List Char)`; the global mutable parser state becomes an
explicit record `ParserSt` threaded through the functions.  The emission of the
completion signal (`stateMachine = State::REQUEST_PARSED`, main.cpp line 213)
is instrumented as a counter `completions` so that "the signal fired" is
observable in the model.
-/

set_option autoImplicit false
set_option maxRecDepth 10000

namespace Railnet

/-- The eleven parser states of `enum ParserState` (main.cpp lines 65-78),
in source order. -/
inductive ParserState : Type where
  | PARSER_INIT
  | SEARCH_STRING_FOUND
  | TOKEN_FIELD_FOUND
  | TOKEN_VALUE_FOUND
  | CEID_FIELD_FOUND
  | CEID_VALUE_FOUND
  | CHECKIT_FIELD_FOUND
  | CHECKIT_VALUE_FOUND
  | FORMTYPE_FIELD_FOUND
  | FORMTYPE_VALUE_FOUND
  | DONE
deriving DecidableEq, Repr

/-- Numeric ordinal of a parser state, matching the `uint8_t` values the C++
enum assigns (0 through 10). -/
def ParserState.ord : ParserState → Nat
  | .PARSER_INIT => 0
  | .SEARCH_STRING_FOUND => 1
  | .TOKEN_FIELD_FOUND => 2
  | .TOKEN_VALUE_FOUND => 3
  | .CEID_FIELD_FOUND => 4
  | .CEID_VALUE_FOUND => 5
  | .CHECKIT_FIELD_FOUND => 6
  | .CHECKIT_VALUE_FOUND => 7
  | .FORMTYPE_FIELD_FOUND => 8
  | .FORMTYPE_VALUE_FOUND => 9
  | .DONE => 10

/-- `SEARCH_STRING` constant (main.cpp line 33). -/
def SEARCH_STRING : List Char := ("action=\"https://railnet.oebb.at/").toList

/-- `TOKEN_FIELD_ID` constant (main.cpp line 34). -/
def TOKEN_FIELD_ID : List Char := ("name=\"_token\"").toList

/-- `CEID_FIELD_ID` constant (main.cpp line 35). -/
def CEID_FIELD_ID : List Char := ("name=\"_ceid\"").toList

/-- `CHECKIT_FIELD_ID` constant (main.cpp line 36). -/
def CHECKIT_FIELD_ID : List Char := ("name=\"checkit\"").toList

/-- `FORMTYPE_FIELD_ID` constant (main.cpp line 37). -/
def FORMTYPE_FIELD_ID : List Char := ("name=\"form_type\"").toList

/-- `VALUE_FIELD_BEGINNING` constant (main.cpp line 39). -/
def VALUE_FIELD_BEGINNING : List Char := ("value=\"").toList

/-- `VALUE_FIELD_BEGINNING_LEN` constant (main.cpp line 40). -/
def VALUE_FIELD_BEGINNING_LEN : Nat := 7

/-- `begMatch pat s` holds when `pat` occurs at the very start of `s`:
the primitive under both `std::string::find` uses below. -/
def begMatch : List Char → List Char → Bool
  | [], _ => true
  | _ :: _, [] => false
  | p :: ps, c :: cs => p = c && begMatch ps cs

/-- Model of `std::string::find(pat)` on a line: index of the leftmost
occurrence of `pat` in `s`, or `none` for `std::string::npos`. -/
def findSub (pat : List Char) : List Char → Option Nat
  | [] => if begMatch pat [] then some 0 else none
  | c :: cs =>
      if begMatch pat (c :: cs) then some 0
      else (findSub pat cs).map (fun n => n + 1)

/-- `line.find(pat) != std::string::npos`, the marker tests of
`checkLineBuffer`. -/
def containsSub (s pat : List Char) : Bool := (findSub pat s).isSome

/-- `occursAt pat s q` holds when `pat` occurs in `s` at position `q`. -/
def occursAt (pat s : List Char) (q : Nat) : Bool := begMatch pat (s.drop q)

/-- `struct FormInformation` (main.cpp lines 47-53): the four optional
captured values. -/
structure FormInformation : Type where
  _token : Option (List Char)
  _ceid : Option (List Char)
  checkit : Option (List Char)
  form_type : Option (List Char)
deriving DecidableEq, Repr

/-- The default-constructed `FormInformation`: all four values `std::nullopt`. -/
def emptyFormInformation : FormInformation := ⟨none, none, none, none⟩

/-- `clearFormInformation()` (main.cpp lines 57-63): resets all four values. -/
def clearFormInformation (_ : FormInformation) : FormInformation :=
  emptyFormInformation

/-- The value scan of `findValueField` (main.cpp lines 109-120): copy
characters until a double quote is hit or the line ends. -/
def scanValue (l : List Char) : List Char := l.takeWhile (fun ch => !(ch = '"'))

/-- The lambda `findValueField` of `checkLineBuffer` (main.cpp lines 100-127):
look for `value="`; when present, scan the value starting right after it and
unconditionally assign it to the field and switch to `newParserState`; when
absent, leave both the field and the state untouched. -/
def findValueField (line : List Char) (value_ref : Option (List Char))
    (newParserState ps : ParserState) : Option (List Char) × ParserState :=
  match findSub VALUE_FIELD_BEGINNING line with
  | some value_pos =>
      (some (scanValue (line.drop (value_pos + VALUE_FIELD_BEGINNING_LEN))),
        newParserState)
  | none => (value_ref, ps)

/-- The value that `findValueField` would capture from a line, when any:
scan from just after the leftmost `value="` until a quote or end of line. -/
def capturedValue (line : List Char) : Option (List Char) :=
  (findSub VALUE_FIELD_BEGINNING line).map
    (fun p => scanValue (line.drop (p + VALUE_FIELD_BEGINNING_LEN)))

/-- One execution of the `switch (parserState)` body of `checkLineBuffer`
(main.cpp lines 140-202) on the current line. -/
def stepLine (line : List Char) (ps : ParserState) (fi : FormInformation) :
    ParserState × FormInformation :=
  match ps with
  | .PARSER_INIT =>
      if containsSub line SEARCH_STRING then (.SEARCH_STRING_FOUND, fi)
      else (ps, fi)
  | .SEARCH_STRING_FOUND =>
      if containsSub line TOKEN_FIELD_ID then (.TOKEN_FIELD_FOUND, fi)
      else (ps, fi)
  | .TOKEN_FIELD_FOUND =>
      let r := findValueField line fi._token .TOKEN_VALUE_FOUND ps
      (r.2, ⟨r.1, fi._ceid, fi.checkit, fi.form_type⟩)
  | .TOKEN_VALUE_FOUND =>
      if containsSub line CEID_FIELD_ID then (.CEID_FIELD_FOUND, fi)
      else (ps, fi)
  | .CEID_FIELD_FOUND =>
      let r := findValueField line fi._ceid .CEID_VALUE_FOUND ps
      (r.2, ⟨fi._token, r.1, fi.checkit, fi.form_type⟩)
  | .CEID_VALUE_FOUND =>
      if containsSub line CHECKIT_FIELD_ID then (.CHECKIT_FIELD_FOUND, fi)
      else (ps, fi)
  | .CHECKIT_FIELD_FOUND =>
      let r := findValueField line fi.checkit .CHECKIT_VALUE_FOUND ps
      (r.2, ⟨fi._token, fi._ceid, r.1, fi.form_type⟩)
  | .CHECKIT_VALUE_FOUND =>
      if containsSub line FORMTYPE_FIELD_ID then (.FORMTYPE_FIELD_FOUND, fi)
      else (ps, fi)
  | .FORMTYPE_FIELD_FOUND =>
      let r := findValueField line fi.form_type .FORMTYPE_VALUE_FOUND ps
      (r.2, ⟨fi._token, fi._ceid, fi.checkit, r.1⟩)
  | .FORMTYPE_VALUE_FOUND => (ps, fi)
  | .DONE => (ps, fi)

/-- The `do { ... } while (parserState != previousParserState)` loop of
`checkLineBuffer` (main.cpp lines 129-203), with explicit fuel.  The C++ loop
is unbounded; `drain_fuel_stable` below proves that fuel `11` (the number of
parser states) already reaches the fixed point, so `drain line 11` is the
exact semantics of the loop. -/
def drain (line : List Char) : Nat → ParserState → FormInformation →
    ParserState × FormInformation
  | 0, ps, fi => (ps, fi)
  | Nat.succ fuel, ps, fi =>
      let r := stepLine line ps fi
      if r.1 = ps then r else drain line fuel r.1 r.2

/-- Fuel that certainly exhausts the drain loop: one strict state advance per
iteration through at most all eleven states. -/
def LOOP_FUEL : Nat := 11

/-- The completion guard `formInformation._token && ... && form_type`
(main.cpp line 205). -/
def allValuesSome (fi : FormInformation) : Bool :=
  fi._token.isSome && fi._ceid.isSome && fi.checkit.isSome &&
    fi.form_type.isSome

/-- The completion check after the loop (main.cpp lines 205-214): when all
four values are present and the state is not already `DONE`, force `DONE` and
emit the completion signal (modelled by incrementing `completions`). -/
def completionCheck (ps : ParserState) (fi : FormInformation)
    (completions : Nat) : ParserState × FormInformation × Nat :=
  if allValuesSome fi ∧ ps ≠ ParserState.DONE then
    (ParserState.DONE, fi, completions + 1)
  else (ps, fi, completions)

/-- `checkLineBuffer()` (main.cpp lines 92-215) on the just-completed line:
the drain loop followed by the completion check. -/
def checkLineBuffer (line : List Char) (ps : ParserState)
    (fi : FormInformation) (completions : Nat) :
    ParserState × FormInformation × Nat :=
  let r := drain line LOOP_FUEL ps fi
  completionCheck r.1 r.2 completions

/-- The global mutable state that `parseResponseBufferIntoLineBuffer` and
`checkLineBuffer` operate on: the ring `lineBuffer` (ten slots), the
accumulator `currentLine`, `bufferIndex`, `parserState`, `formInformation`,
and the instrumented count of completion signals. -/
structure ParserSt : Type where
  lineBuffer : List (List Char)
  currentLine : List Char
  bufferIndex : Nat
  parserState : ParserState
  formInformation : FormInformation
  completions : Nat
deriving DecidableEq, Repr

/-- The body of the per-byte loop of `parseResponseBufferIntoLineBuffer`
(main.cpp lines 221-241): a newline completes the current line (newline
included), stores it in the ring slot, runs `checkLineBuffer`, advances
`bufferIndex` modulo the ring capacity 10, and clears the accumulator; any
other byte is appended to the accumulator. -/
def feedChar (s : ParserSt) (c : Char) : ParserSt :=
  if c = '\n' then
    let line := s.currentLine ++ [c]
    let r := checkLineBuffer line s.parserState s.formInformation s.completions
    ⟨s.lineBuffer.set s.bufferIndex line, [], (s.bufferIndex + 1) % 10,
      r.1, r.2.1, r.2.2⟩
  else
    ⟨s.lineBuffer, s.currentLine ++ [c], s.bufferIndex, s.parserState,
      s.formInformation, s.completions⟩

/-- `parseResponseBufferIntoLineBuffer(buf, len)` (main.cpp lines 217-242):
fold the per-byte body over the chunk. -/
def feed (s : ParserSt) (chunk : List Char) : ParserSt :=
  chunk.foldl feedChar s

/-- The state established by the session-reset code in the `WIFI_CONNECTED`
branch of `loop` (main.cpp lines 363-369): ring slots emptied, accumulator
cleared, `bufferIndex` zero, values cleared, parser state `PARSER_INIT`;
the completion-signal count of the new session starts at zero. -/
def resetState : ParserSt :=
  ⟨List.replicate 10 [], [], 0, .PARSER_INIT, emptyFormInformation, 0⟩

/-- The session reset (main.cpp lines 363-369) as an operation on the state:
it overwrites every parsing-related field, so its result is independent of the
prior state. -/
def sessionReset (_ : ParserSt) : ParserSt := resetState

/-- `noQuoteO o` holds when the optional value `o` is absent or contains no
double-quote character. -/
def noQuoteO : Option (List Char) → Bool
  | none => true
  | some v => v.all (fun ch => !(ch = '"'))

/-- Write-once invariant on a parser state and captured values: a field is
still absent whenever the machine has not yet passed the state that captures
it. -/
def FIInv (ps : ParserState) (fi : FormInformation) : Prop :=
  (ps.ord < 3 → fi._token = none) ∧ (ps.ord < 5 → fi._ceid = none) ∧
    (ps.ord < 7 → fi.checkit = none) ∧ (ps.ord < 9 → fi.form_type = none)

/-- State-level write-once invariant. -/
def StInv (s : ParserSt) : Prop := FIInv s.parserState s.formInformation

/-- Session invariant for the completion signal: either it has not fired and
the state is not `DONE`, or it has fired exactly once, the state is `DONE`,
and all four values are present. -/
def SigInv (s : ParserSt) : Prop :=
  (s.completions = 0 ∧ s.parserState ≠ .DONE) ∨
    (s.completions = 1 ∧ s.parserState = .DONE ∧
      allValuesSome s.formInformation = true)

/-- Quote-freedom invariant: every captured value is quote-free. -/
def QInv (fi : FormInformation) : Prop :=
  noQuoteO fi._token = true ∧ noQuoteO fi._ceid = true ∧
    noQuoteO fi.checkit = true ∧ noQuoteO fi.form_type = true

theorem ord_le_ten (ps : ParserState) : ps.ord ≤ 10 := by
  cases ps <;> simp [ParserState.ord]

theorem stepLine_adv (line : List Char) (ps : ParserState)
    (fi : FormInformation) :
    (stepLine line ps fi).1 = ps ∨ ps.ord < ((stepLine line ps fi).1).ord := by
  cases ps <;>
    simp only [stepLine, findValueField] <;>
    first
      | (split <;> simp [ParserState.ord])
      | (rcases h : findSub VALUE_FIELD_BEGINNING line with _ | p <;>
          simp [h, ParserState.ord])

theorem stepLine_fix_fi (line : List Char) (ps : ParserState)
    (fi : FormInformation) (h : (stepLine line ps fi).1 = ps) :
    stepLine line ps fi = (ps, fi) := by
  cases ps <;>
    simp only [stepLine, findValueField] at h ⊢ <;>
    (split at h <;> simp_all)

theorem stepLine_done (line : List Char) (fi : FormInformation) :
    stepLine line .DONE fi = (.DONE, fi) := rfl

theorem stepLine_not_done (line : List Char) (ps : ParserState)
    (fi : FormInformation) (h : ps ≠ ParserState.DONE) :
    (stepLine line ps fi).1 ≠ ParserState.DONE := by
  cases ps <;>
    simp only [stepLine, findValueField] <;>
    first
      | (split <;> simp_all)
      | simp_all

theorem stepLine_mono (line : List Char) (ps : ParserState)
    (fi : FormInformation) : ps.ord ≤ ((stepLine line ps fi).1).ord := by
  rcases stepLine_adv line ps fi with h | h
  · rw [h]
  · exact Nat.le_of_lt h

theorem stepLine_values_stable (line : List Char) (ps : ParserState)
    (fi : FormInformation) :
    (3 ≤ ps.ord → ((stepLine line ps fi).2)._token = fi._token) ∧
      (5 ≤ ps.ord → ((stepLine line ps fi).2)._ceid = fi._ceid) ∧
      (7 ≤ ps.ord → ((stepLine line ps fi).2).checkit = fi.checkit) ∧
      (9 ≤ ps.ord → ((stepLine line ps fi).2).form_type = fi.form_type) := by
  cases ps <;>
    simp only [stepLine, findValueField, ParserState.ord] <;>
    (try split) <;> simp

theorem stepLine_FIInv (line : List Char) (ps : ParserState)
    (fi : FormInformation) (h : FIInv ps fi) :
    FIInv (stepLine line ps fi).1 (stepLine line ps fi).2 := by
  obtain ⟨h1, h2, h3, h4⟩ := h
  cases ps <;>
    simp only [stepLine, findValueField] <;>
    (try split) <;>
    simp_all [FIInv, ParserState.ord]

theorem stepLine_keep_values (line : List Char) (ps : ParserState)
    (fi : FormInformation) (h : FIInv ps fi) :
    (∀ v, fi._token = some v → ((stepLine line ps fi).2)._token = some v) ∧
      (∀ v, fi._ceid = some v → ((stepLine line ps fi).2)._ceid = some v) ∧
      (∀ v, fi.checkit = some v → ((stepLine line ps fi).2).checkit = some v) ∧
      (∀ v, fi.form_type = some v →
        ((stepLine line ps fi).2).form_type = some v) := by
  obtain ⟨h1, h2, h3, h4⟩ := h
  cases ps <;>
    simp only [stepLine, findValueField] <;>
    (try split) <;>
    simp_all [FIInv, ParserState.ord]

theorem drain_succ (line : List Char) (fuel : Nat) (ps : ParserState)
    (fi : FormInformation) :
    drain line (fuel + 1) ps fi =
      if (stepLine line ps fi).1 = ps then stepLine line ps fi
      else drain line fuel (stepLine line ps fi).1 (stepLine line ps fi).2 :=
  rfl

theorem drain_mono (line : List Char) :
    ∀ (fuel : Nat) (ps : ParserState) (fi : FormInformation),
      ps.ord ≤ ((drain line fuel ps fi).1).ord := by
  intro fuel
  induction fuel with
  | zero => intro ps fi; exact Nat.le_refl _
  | succ n ih =>
      intro ps fi
      rw [drain_succ]
      by_cases hc : (stepLine line ps fi).1 = ps
      · rw [if_pos hc, hc]
      · rw [if_neg hc]
        exact Nat.le_trans (stepLine_mono line ps fi) (ih _ _)

theorem drain_not_done (line : List Char) :
    ∀ (fuel : Nat) (ps : ParserState) (fi : FormInformation),
      ps ≠ ParserState.DONE → ((drain line fuel ps fi).1) ≠ ParserState.DONE := by
  intro fuel
  induction fuel with
  | zero => intro ps fi h; exact h
  | succ n ih =>
      intro ps fi h
      rw [drain_succ]
      by_cases hc : (stepLine line ps fi).1 = ps
      · rw [if_pos hc, hc]; exact h
      · rw [if_neg hc]
        exact ih _ _ (stepLine_not_done line ps fi h)

theorem drain_done (line : List Char) (fuel : Nat) (fi : FormInformation) :
    drain line fuel .DONE fi = (.DONE, fi) := by
  cases fuel with
  | zero => rfl
  | succ n => rw [drain_succ, stepLine_done]; simp

theorem drain_fuel_stable (line : List Char) :
    ∀ (fuel : Nat) (ps : ParserState) (fi : FormInformation),
      11 - ps.ord ≤ fuel →
      drain line (fuel + 1) ps fi = drain line fuel ps fi := by
  intro fuel
  induction fuel with
  | zero =>
      intro ps fi h
      have := ord_le_ten ps
      omega
  | succ n ih =>
      intro ps fi h
      by_cases hc : (stepLine line ps fi).1 = ps
      · rw [drain_succ, if_pos hc, drain_succ, if_pos hc]
      · rw [drain_succ, if_neg hc]
        conv_rhs => rw [drain_succ, if_neg hc]
        refine ih _ _ ?_
        rcases stepLine_adv line ps fi with h2 | h2
        · exact absurd h2 hc
        · omega

theorem drain_eleven (line : List Char) :
    ∀ (k : Nat) (ps : ParserState) (fi : FormInformation),
      drain line (11 + k) ps fi = drain line 11 ps fi := by
  intro k
  induction k with
  | zero => intro ps fi; rfl
  | succ n ih =>
      intro ps fi
      have h : 11 + (n + 1) = (11 + n) + 1 := rfl
      rw [h, drain_fuel_stable line (11 + n) ps fi (by have := ord_le_ten ps; omega)]
      exact ih ps fi

theorem drain_fixpoint (line : List Char) :
    ∀ (fuel : Nat) (ps : ParserState) (fi : FormInformation),
      11 - ps.ord ≤ fuel →
      stepLine line ((drain line fuel ps fi).1) ((drain line fuel ps fi).2) =
        drain line fuel ps fi := by
  intro fuel
  induction fuel with
  | zero =>
      intro ps fi h
      have := ord_le_ten ps
      omega
  | succ n ih =>
      intro ps fi h
      by_cases hc : (stepLine line ps fi).1 = ps
      · have hfix := stepLine_fix_fi line ps fi hc
        rw [drain_succ, if_pos hc, hfix]
        exact hfix
      · rw [drain_succ, if_neg hc]
        refine ih _ _ ?_
        rcases stepLine_adv line ps fi with h2 | h2
        · exact absurd h2 hc
        · omega

theorem drain_FIInv (line : List Char) :
    ∀ (fuel : Nat) (ps : ParserState) (fi : FormInformation),
      FIInv ps fi → FIInv ((drain line fuel ps fi).1) ((drain line fuel ps fi).2) := by
  intro fuel
  induction fuel with
  | zero => intro ps fi h; exact h
  | succ n ih =>
      intro ps fi h
      rw [drain_succ]
      by_cases hc : (stepLine line ps fi).1 = ps
      · rw [if_pos hc]
        exact stepLine_FIInv line ps fi h
      · rw [if_neg hc]
        exact ih _ _ (stepLine_FIInv line ps fi h)

theorem drain_keep_values (line : List Char) :
    ∀ (fuel : Nat) (ps : ParserState) (fi : FormInformation), FIInv ps fi →
      (∀ v, fi._token = some v → ((drain line fuel ps fi).2)._token = some v) ∧
      (∀ v, fi._ceid = some v → ((drain line fuel ps fi).2)._ceid = some v) ∧
      (∀ v, fi.checkit = some v → ((drain line fuel ps fi).2).checkit = some v) ∧
      (∀ v, fi.form_type = some v →
        ((drain line fuel ps fi).2).form_type = some v) := by
  intro fuel
  induction fuel with
  | zero => intro ps fi _; exact ⟨fun v hv => hv, fun v hv => hv,
      fun v hv => hv, fun v hv => hv⟩
  | succ n ih =>
      intro ps fi h
      have hstep := stepLine_keep_values line ps fi h
      rw [drain_succ]
      by_cases hc : (stepLine line ps fi).1 = ps
      · rw [if_pos hc]
        exact hstep
      · rw [if_neg hc]
        have hrec := ih _ _ (stepLine_FIInv line ps fi h)
        exact ⟨fun v hv => hrec.1 v (hstep.1 v hv),
          fun v hv => hrec.2.1 v (hstep.2.1 v hv),
          fun v hv => hrec.2.2.1 v (hstep.2.2.1 v hv),
          fun v hv => hrec.2.2.2 v (hstep.2.2.2 v hv)⟩

theorem drain_values_stable (line : List Char) :
    ∀ (fuel : Nat) (ps : ParserState) (fi : FormInformation),
      (3 ≤ ps.ord → ((drain line fuel ps fi).2)._token = fi._token) ∧
      (5 ≤ ps.ord → ((drain line fuel ps fi).2)._ceid = fi._ceid) ∧
      (7 ≤ ps.ord → ((drain line fuel ps fi).2).checkit = fi.checkit) ∧
      (9 ≤ ps.ord → ((drain line fuel ps fi).2).form_type = fi.form_type) := by
  intro fuel
  induction fuel with
  | zero => intro ps fi; exact ⟨fun _ => rfl, fun _ => rfl, fun _ => rfl,
      fun _ => rfl⟩
  | succ n ih =>
      intro ps fi
      have hstep := stepLine_values_stable line ps fi
      have hmono := stepLine_mono line ps fi
      rw [drain_succ]
      by_cases hc : (stepLine line ps fi).1 = ps
      · rw [if_pos hc]
        exact hstep
      · rw [if_neg hc]
        have hrec := ih ((stepLine line ps fi).1) ((stepLine line ps fi).2)
        exact ⟨fun h => (hrec.1 (Nat.le_trans h hmono)).trans (hstep.1 h),
          fun h => (hrec.2.1 (Nat.le_trans h hmono)).trans (hstep.2.1 h),
          fun h => (hrec.2.2.1 (Nat.le_trans h hmono)).trans (hstep.2.2.1 h),
          fun h => (hrec.2.2.2 (Nat.le_trans h hmono)).trans (hstep.2.2.2 h)⟩

theorem completionCheck_fi (ps : ParserState) (fi : FormInformation) (c : Nat) :
    (completionCheck ps fi c).2.1 = fi := by
  unfold completionCheck
  split <;> rfl

theorem completionCheck_mono (ps : ParserState) (fi : FormInformation)
    (c : Nat) : ps.ord ≤ ((completionCheck ps fi c).1).ord := by
  unfold completionCheck
  split
  · exact ord_le_ten ps
  · exact Nat.le_refl _

theorem completionCheck_done (fi : FormInformation) (c : Nat) :
    completionCheck .DONE fi c = (.DONE, fi, c) := by
  unfold completionCheck
  simp

theorem completionCheck_FIInv (ps : ParserState) (fi : FormInformation)
    (c : Nat) (h : FIInv ps fi) :
    FIInv ((completionCheck ps fi c).1) ((completionCheck ps fi c).2.1) := by
  unfold completionCheck
  split
  · simp [FIInv, ParserState.ord]
  · exact h

theorem checkLineBuffer_mono (line : List Char) (ps : ParserState)
    (fi : FormInformation) (c : Nat) :
    ps.ord ≤ ((checkLineBuffer line ps fi c).1).ord := by
  unfold checkLineBuffer
  exact Nat.le_trans (drain_mono line LOOP_FUEL ps fi) (completionCheck_mono _ _ _)

theorem checkLineBuffer_done (line : List Char) (fi : FormInformation)
    (c : Nat) : checkLineBuffer line .DONE fi c = (.DONE, fi, c) := by
  unfold checkLineBuffer
  rw [drain_done]
  exact completionCheck_done fi c

theorem checkLineBuffer_FIInv (line : List Char) (ps : ParserState)
    (fi : FormInformation) (c : Nat) (h : FIInv ps fi) :
    FIInv ((checkLineBuffer line ps fi c).1) ((checkLineBuffer line ps fi c).2.1) := by
  unfold checkLineBuffer
  exact completionCheck_FIInv _ _ _ (drain_FIInv line LOOP_FUEL ps fi h)

theorem checkLineBuffer_keep_values (line : List Char) (ps : ParserState)
    (fi : FormInformation) (c : Nat) (h : FIInv ps fi) :
    (∀ v, fi._token = some v →
      ((checkLineBuffer line ps fi c).2.1)._token = some v) ∧
    (∀ v, fi._ceid = some v →
      ((checkLineBuffer line ps fi c).2.1)._ceid = some v) ∧
    (∀ v, fi.checkit = some v →
      ((checkLineBuffer line ps fi c).2.1).checkit = some v) ∧
    (∀ v, fi.form_type = some v →
      ((checkLineBuffer line ps fi c).2.1).form_type = some v) := by
  unfold checkLineBuffer
  rw [completionCheck_fi]
  exact drain_keep_values line LOOP_FUEL ps fi h

theorem checkLineBuffer_signal_of_fresh (line : List Char) (ps : ParserState)
    (fi : FormInformation) (h : ps ≠ ParserState.DONE) :
    ((checkLineBuffer line ps fi 0).2.2 = 0 ∧
        (checkLineBuffer line ps fi 0).1 ≠ ParserState.DONE) ∨
      ((checkLineBuffer line ps fi 0).2.2 = 1 ∧
        (checkLineBuffer line ps fi 0).1 = ParserState.DONE ∧
        allValuesSome ((checkLineBuffer line ps fi 0).2.1) = true) := by
  have heq : checkLineBuffer line ps fi 0 =
      completionCheck ((drain line LOOP_FUEL ps fi).1)
        ((drain line LOOP_FUEL ps fi).2) 0 := rfl
  rw [heq]
  unfold completionCheck
  have hr := drain_not_done line LOOP_FUEL ps fi h
  split
  · next hg => exact Or.inr ⟨rfl, rfl, hg.1⟩
  · exact Or.inl ⟨rfl, hr⟩

theorem scanValue_noQuote (l : List Char) :
    (scanValue l).all (fun ch => !(ch = '"')) = true := by
  induction l with
  | nil => rfl
  | cons c cs ih =>
      by_cases hc : c = '"' <;> simp_all [scanValue, List.takeWhile, hc]

theorem stepLine_QInv (line : List Char) (ps : ParserState)
    (fi : FormInformation) (h : QInv fi) : QInv (stepLine line ps fi).2 := by
  obtain ⟨h1, h2, h3, h4⟩ := h
  cases ps <;>
    simp only [stepLine, findValueField] <;>
    (try split) <;>
    simp_all [QInv, noQuoteO, scanValue_noQuote]

theorem drain_QInv (line : List Char) :
    ∀ (fuel : Nat) (ps : ParserState) (fi : FormInformation),
      QInv fi → QInv ((drain line fuel ps fi).2) := by
  intro fuel
  induction fuel with
  | zero => intro ps fi h; exact h
  | succ n ih =>
      intro ps fi h
      rw [drain_succ]
      by_cases hc : (stepLine line ps fi).1 = ps
      · rw [if_pos hc]
        exact stepLine_QInv line ps fi h
      · rw [if_neg hc]
        exact ih _ _ (stepLine_QInv line ps fi h)

theorem checkLineBuffer_QInv (line : List Char) (ps : ParserState)
    (fi : FormInformation) (c : Nat) (h : QInv fi) :
    QInv ((checkLineBuffer line ps fi c).2.1) := by
  unfold checkLineBuffer
  rw [completionCheck_fi]
  exact drain_QInv line LOOP_FUEL ps fi h

theorem feed_nil (s : ParserSt) : feed s [] = s := rfl

theorem feed_cons (s : ParserSt) (c : Char) (cs : List Char) :
    feed s (c :: cs) = feed (feedChar s c) cs := rfl

theorem feed_append_chunks (s : ParserSt) (a b : List Char) :
    feed s (a ++ b) = feed (feed s a) b := by
  simp [feed, List.foldl_append]

theorem feed_inv (P : ParserSt → Prop)
    (hP : ∀ s c, P s → P (feedChar s c)) :
    ∀ (chunk : List Char) (s : ParserSt), P s → P (feed s chunk) := by
  intro chunk
  induction chunk with
  | nil => intro s h; exact h
  | cons c cs ih =>
      intro s h
      rw [feed_cons]
      exact ih _ (hP s c h)

theorem feedChar_mono (s : ParserSt) (c : Char) :
    s.parserState.ord ≤ ((feedChar s c).parserState).ord := by
  unfold feedChar
  split
  · exact checkLineBuffer_mono _ _ _ _
  · exact Nat.le_refl _

theorem feed_mono (chunk : List Char) (s : ParserSt) :
    s.parserState.ord ≤ ((feed s chunk).parserState).ord := by
  refine feed_inv (fun t => s.parserState.ord ≤ t.parserState.ord)
    (fun t c h => Nat.le_trans h (feedChar_mono t c)) chunk s (Nat.le_refl _)

theorem feedChar_StInv (s : ParserSt) (c : Char) (h : StInv s) :
    StInv (feedChar s c) := by
  unfold feedChar
  split
  · exact checkLineBuffer_FIInv _ _ _ _ h
  · exact h

theorem feed_StInv (chunk : List Char) (s : ParserSt) (h : StInv s) :
    StInv (feed s chunk) :=
  feed_inv StInv feedChar_StInv chunk s h

theorem StInv_resetState : StInv resetState := by
  refine ⟨fun _ => rfl, fun _ => rfl, fun _ => rfl, fun _ => rfl⟩

theorem feedChar_QInv (s : ParserSt) (c : Char) (h : QInv s.formInformation) :
    QInv ((feedChar s c).formInformation) := by
  unfold feedChar
  split
  · exact checkLineBuffer_QInv _ _ _ _ h
  · exact h

theorem feed_QInv (chunk : List Char) (s : ParserSt)
    (h : QInv s.formInformation) : QInv ((feed s chunk).formInformation) :=
  feed_inv (fun t => QInv t.formInformation) feedChar_QInv chunk s h

theorem QInv_resetState : QInv resetState.formInformation :=
  ⟨rfl, rfl, rfl, rfl⟩

theorem feedChar_SigInv (s : ParserSt) (c : Char) (h : SigInv s) :
    SigInv (feedChar s c) := by
  unfold feedChar
  split
  · rcases h with ⟨hc0, hnd⟩ | ⟨hc1, hpd, hall⟩
    · rw [hc0]
      exact checkLineBuffer_signal_of_fresh _ _ _ hnd
    · rw [hc1, hpd]
      simp only [checkLineBuffer_done]
      exact Or.inr ⟨rfl, rfl, hall⟩
  · exact h

theorem feed_SigInv (chunk : List Char) (s : ParserSt) (h : SigInv s) :
    SigInv (feed s chunk) :=
  feed_inv SigInv feedChar_SigInv chunk s h

theorem SigInv_resetState : SigInv resetState :=
  Or.inl ⟨rfl, by simp [resetState]⟩

theorem feedChar_keep_values (s : ParserSt) (c : Char) (h : StInv s) :
    (∀ v, s.formInformation._token = some v →
      ((feedChar s c).formInformation)._token = some v) ∧
    (∀ v, s.formInformation._ceid = some v →
      ((feedChar s c).formInformation)._ceid = some v) ∧
    (∀ v, s.formInformation.checkit = some v →
      ((feedChar s c).formInformation).checkit = some v) ∧
    (∀ v, s.formInformation.form_type = some v →
      ((feedChar s c).formInformation).form_type = some v) := by
  unfold feedChar
  split
  · exact checkLineBuffer_keep_values _ _ _ _ h
  · exact ⟨fun v hv => hv, fun v hv => hv, fun v hv => hv, fun v hv => hv⟩

theorem checkLineBuffer_eq (line : List Char) (ps : ParserState)
    (fi : FormInformation) (c : Nat) :
    checkLineBuffer line ps fi c =
      completionCheck ((drain line LOOP_FUEL ps fi).1)
        ((drain line LOOP_FUEL ps fi).2) c := rfl

theorem containsSub_exists (s pat : List Char) (h : containsSub s pat = true) :
    ∃ p, findSub pat s = some p := by
  unfold containsSub at h
  exact Option.isSome_iff_exists.mp h

theorem findSub_occurs (pat : List Char) :
    ∀ (s : List Char) (p : Nat), findSub pat s = some p →
      occursAt pat s p = true := by
  intro s
  induction s with
  | nil =>
      intro p h
      simp only [findSub] at h
      split at h
      · next hb =>
          injection h with h2
          subst h2
          exact hb
      · exact absurd h (by simp)
  | cons c cs ih =>
      intro p h
      simp only [findSub] at h
      split at h
      · next hb =>
          injection h with h2
          subst h2
          exact hb
      · next hb =>
          obtain ⟨q, hq, hpq⟩ := Option.map_eq_some'.mp h
          subst hpq
          unfold occursAt
          rw [List.drop_succ_cons]
          exact ih q hq

theorem findSub_min (pat : List Char) :
    ∀ (s : List Char) (p : Nat), findSub pat s = some p →
      ∀ q, q < p → occursAt pat s q = false := by
  intro s
  induction s with
  | nil =>
      intro p h q hq
      simp only [findSub] at h
      split at h
      · next hb =>
          injection h with h2
          omega
      · exact absurd h (by simp)
  | cons c cs ih =>
      intro p h q hq
      simp only [findSub] at h
      split at h
      · next hb =>
          injection h with h2
          omega
      · next hb =>
          obtain ⟨r, hr, hpr⟩ := Option.map_eq_some'.mp h
          subst hpr
          cases q with
          | zero =>
              unfold occursAt
              simp only [List.drop_zero]
              exact Bool.not_eq_true _ ▸ Bool.of_not_eq_true hb
          | succ n =>
              unfold occursAt
              rw [List.drop_succ_cons]
              exact ih r hr n (by omega)

theorem scanValue_of_noQuote (l : List Char)
    (h : l.all (fun ch => !(ch = '"')) = true) : scanValue l = l := by
  induction l with
  | nil => rfl
  | cons c cs ih =>
      simp only [List.all_cons, Bool.and_eq_true] at h
      simp only [scanValue, List.takeWhile_cons] at ih ⊢
      simp [h.1, ih h.2]

theorem feed_keep_values (chunk : List Char) (s : ParserSt) (h : StInv s) :
    (∀ v, s.formInformation._token = some v →
      ((feed s chunk).formInformation)._token = some v) ∧
    (∀ v, s.formInformation._ceid = some v →
      ((feed s chunk).formInformation)._ceid = some v) ∧
    (∀ v, s.formInformation.checkit = some v →
      ((feed s chunk).formInformation).checkit = some v) ∧
    (∀ v, s.formInformation.form_type = some v →
      ((feed s chunk).formInformation).form_type = some v) := by
  have main := feed_inv
    (fun t => StInv t ∧
      (∀ v, s.formInformation._token = some v →
        t.formInformation._token = some v) ∧
      (∀ v, s.formInformation._ceid = some v →
        t.formInformation._ceid = some v) ∧
      (∀ v, s.formInformation.checkit = some v →
        t.formInformation.checkit = some v) ∧
      (∀ v, s.formInformation.form_type = some v →
        t.formInformation.form_type = some v))
    (fun t c ht => by
      have hk := feedChar_keep_values t c ht.1
      exact ⟨feedChar_StInv t c ht.1,
        fun v hv => hk.1 v (ht.2.1 v hv),
        fun v hv => hk.2.1 v (ht.2.2.1 v hv),
        fun v hv => hk.2.2.1 v (ht.2.2.2.1 v hv),
        fun v hv => hk.2.2.2 v (ht.2.2.2.2 v hv)⟩)
    chunk s
    ⟨h, fun v hv => hv, fun v hv => hv, fun v hv => hv, fun v hv => hv⟩
  exact main.2

/-- Claim C1 (chunk-boundary invariance): feeding `a ++ b` from any parser
state gives exactly the same state — hence the same four extracted values and
the same completion outcome — as feeding `a` and then `b`, for every split,
including splits mid-marker, mid-value, and exactly at a newline. -/
theorem chunk_boundary_invariance (s : ParserSt) (a b : List Char) :
    feed s (a ++ b) = feed (feed s a) b :=
  feed_append_chunks s a b

/-- Claim C2 (completion fires exactly once per session): whenever, after the
per-line loop, all four values are present and the state is not already
`DONE`, the completion check forces `DONE` and emits the signal, for any
ordinal state; and over any byte stream of one session started at the reset
state, the signal count is at most one and equals one only with the state at
`DONE` and all four values present. -/
theorem completion_fires_once (ps : ParserState) (fi : FormInformation)
    (c : Nat) (chunk : List Char) :
    (allValuesSome fi = true → ps ≠ ParserState.DONE →
      completionCheck ps fi c = (.DONE, fi, c + 1)) ∧
    (feed resetState chunk).completions ≤ 1 ∧
    ((feed resetState chunk).completions = 0 ∨
      ((feed resetState chunk).completions = 1 ∧
        (feed resetState chunk).parserState = ParserState.DONE ∧
        allValuesSome ((feed resetState chunk).formInformation) = true)) := by
  refine ⟨?_, ?_, ?_⟩
  · intro ha hd
    unfold completionCheck
    rw [if_pos ⟨ha, hd⟩]
  · rcases feed_SigInv chunk resetState SigInv_resetState with ⟨h0, _⟩ | ⟨h1, _, _⟩ <;>
      omega
  · rcases feed_SigInv chunk resetState SigInv_resetState with ⟨h0, _⟩ | ⟨h1, h2, h3⟩
    · exact Or.inl h0
    · exact Or.inr ⟨h1, h2, h3⟩

theorem completion_fires_once_witness :
    completionCheck .PARSER_INIT ⟨some [], some [], some [], some []⟩ 0 =
      (.DONE, ⟨some [], some [], some [], some []⟩, 1) :=
  (completion_fires_once .PARSER_INIT ⟨some [], some [], some [], some []⟩
    0 []).1 rfl (by decide)

/-- Claim C3 (same-line drain): for every field marker, a line carrying both
that marker and a `value="` occurrence, processed once from the state waiting
for that marker, stores the captured value in that same invocation — marker
detected, then value captured, both within one `checkLineBuffer` call — and
the state has advanced at least to the corresponding value-found state, the
loop stopping only at a fixed point. -/
theorem same_line_drain (line : List Char) (fi : FormInformation) (c : Nat)
    (hv : containsSub line VALUE_FIELD_BEGINNING = true) :
    (containsSub line TOKEN_FIELD_ID = true →
      ((checkLineBuffer line .SEARCH_STRING_FOUND fi c).2.1)._token
          = capturedValue line ∧
        ParserState.ord .TOKEN_VALUE_FOUND ≤
          ((checkLineBuffer line .SEARCH_STRING_FOUND fi c).1).ord) ∧
    (containsSub line CEID_FIELD_ID = true →
      ((checkLineBuffer line .TOKEN_VALUE_FOUND fi c).2.1)._ceid
          = capturedValue line ∧
        ParserState.ord .CEID_VALUE_FOUND ≤
          ((checkLineBuffer line .TOKEN_VALUE_FOUND fi c).1).ord) ∧
    (containsSub line CHECKIT_FIELD_ID = true →
      ((checkLineBuffer line .CEID_VALUE_FOUND fi c).2.1).checkit
          = capturedValue line ∧
        ParserState.ord .CHECKIT_VALUE_FOUND ≤
          ((checkLineBuffer line .CEID_VALUE_FOUND fi c).1).ord) ∧
    (containsSub line FORMTYPE_FIELD_ID = true →
      ((checkLineBuffer line .CHECKIT_VALUE_FOUND fi c).2.1).form_type
          = capturedValue line ∧
        ParserState.ord .FORMTYPE_VALUE_FOUND ≤
          ((checkLineBuffer line .CHECKIT_VALUE_FOUND fi c).1).ord) ∧
    (capturedValue line).isSome = true := by
  obtain ⟨p, hp⟩ := containsSub_exists line VALUE_FIELD_BEGINNING hv
  have hcap : capturedValue line =
      some (scanValue (line.drop (p + VALUE_FIELD_BEGINNING_LEN))) := by
    simp [capturedValue, hp]
  refine ⟨?_, ?_, ?_, ?_, by simp [capturedValue, hp]⟩
  · intro hm
    have s1 : stepLine line .SEARCH_STRING_FOUND fi =
        (.TOKEN_FIELD_FOUND, fi) := by
      simp [stepLine, hm]
    have s2 : stepLine line .TOKEN_FIELD_FOUND fi =
        (.TOKEN_VALUE_FOUND,
          ⟨some (scanValue (line.drop (p + VALUE_FIELD_BEGINNING_LEN))),
            fi._ceid, fi.checkit, fi.form_type⟩) := by
      simp [stepLine, findValueField, hp]
    have h1 : drain line LOOP_FUEL .SEARCH_STRING_FOUND fi =
        drain line 9 .TOKEN_VALUE_FOUND
          ⟨some (scanValue (line.drop (p + VALUE_FIELD_BEGINNING_LEN))),
            fi._ceid, fi.checkit, fi.form_type⟩ := by
      show drain line (10 + 1) .SEARCH_STRING_FOUND fi = _
      rw [drain_succ, s1, if_neg (by simp)]
      show drain line (9 + 1) .TOKEN_FIELD_FOUND fi = _
      rw [drain_succ, s2, if_neg (by simp)]
    constructor
    · rw [checkLineBuffer_eq, completionCheck_fi, h1, hcap]
      exact (drain_values_stable line 9 .TOKEN_VALUE_FOUND _).1 (by decide)
    · rw [checkLineBuffer_eq]
      refine Nat.le_trans ?_ (completionCheck_mono _ _ _)
      rw [h1]
      exact drain_mono line 9 .TOKEN_VALUE_FOUND _
  · intro hm
    have s1 : stepLine line .TOKEN_VALUE_FOUND fi =
        (.CEID_FIELD_FOUND, fi) := by
      simp [stepLine, hm]
    have s2 : stepLine line .CEID_FIELD_FOUND fi =
        (.CEID_VALUE_FOUND,
          ⟨fi._token, some (scanValue (line.drop (p + VALUE_FIELD_BEGINNING_LEN))),
            fi.checkit, fi.form_type⟩) := by
      simp [stepLine, findValueField, hp]
    have h1 : drain line LOOP_FUEL .TOKEN_VALUE_FOUND fi =
        drain line 9 .CEID_VALUE_FOUND
          ⟨fi._token, some (scanValue (line.drop (p + VALUE_FIELD_BEGINNING_LEN))),
            fi.checkit, fi.form_type⟩ := by
      show drain line (10 + 1) .TOKEN_VALUE_FOUND fi = _
      rw [drain_succ, s1, if_neg (by simp)]
      show drain line (9 + 1) .CEID_FIELD_FOUND fi = _
      rw [drain_succ, s2, if_neg (by simp)]
    constructor
    · rw [checkLineBuffer_eq, completionCheck_fi, h1, hcap]
      exact (drain_values_stable line 9 .CEID_VALUE_FOUND _).2.1 (by decide)
    · rw [checkLineBuffer_eq]
      refine Nat.le_trans ?_ (completionCheck_mono _ _ _)
      rw [h1]
      exact drain_mono line 9 .CEID_VALUE_FOUND _
  · intro hm
    have s1 : stepLine line .CEID_VALUE_FOUND fi =
        (.CHECKIT_FIELD_FOUND, fi) := by
      simp [stepLine, hm]
    have s2 : stepLine line .CHECKIT_FIELD_FOUND fi =
        (.CHECKIT_VALUE_FOUND,
          ⟨fi._token, fi._ceid,
            some (scanValue (line.drop (p + VALUE_FIELD_BEGINNING_LEN))),
            fi.form_type⟩) := by
      simp [stepLine, findValueField, hp]
    have h1 : drain line LOOP_FUEL .CEID_VALUE_FOUND fi =
        drain line 9 .CHECKIT_VALUE_FOUND
          ⟨fi._token, fi._ceid,
            some (scanValue (line.drop (p + VALUE_FIELD_BEGINNING_LEN))),
            fi.form_type⟩ := by
      show drain line (10 + 1) .CEID_VALUE_FOUND fi = _
      rw [drain_succ, s1, if_neg (by simp)]
      show drain line (9 + 1) .CHECKIT_FIELD_FOUND fi = _
      rw [drain_succ, s2, if_neg (by simp)]
    constructor
    · rw [checkLineBuffer_eq, completionCheck_fi, h1, hcap]
      exact (drain_values_stable line 9 .CHECKIT_VALUE_FOUND _).2.2.1 (by decide)
    · rw [checkLineBuffer_eq]
      refine Nat.le_trans ?_ (completionCheck_mono _ _ _)
      rw [h1]
      exact drain_mono line 9 .CHECKIT_VALUE_FOUND _
  · intro hm
    have s1 : stepLine line .CHECKIT_VALUE_FOUND fi =
        (.FORMTYPE_FIELD_FOUND, fi) := by
      simp [stepLine, hm]
    have s2 : stepLine line .FORMTYPE_FIELD_FOUND fi =
        (.FORMTYPE_VALUE_FOUND,
          ⟨fi._token, fi._ceid, fi.checkit,
            some (scanValue (line.drop (p + VALUE_FIELD_BEGINNING_LEN)))⟩) := by
      simp [stepLine, findValueField, hp]
    have h1 : drain line LOOP_FUEL .CHECKIT_VALUE_FOUND fi =
        drain line 9 .FORMTYPE_VALUE_FOUND
          ⟨fi._token, fi._ceid, fi.checkit,
            some (scanValue (line.drop (p + VALUE_FIELD_BEGINNING_LEN)))⟩ := by
      show drain line (10 + 1) .CHECKIT_VALUE_FOUND fi = _
      rw [drain_succ, s1, if_neg (by simp)]
      show drain line (9 + 1) .FORMTYPE_FIELD_FOUND fi = _
      rw [drain_succ, s2, if_neg (by simp)]
    constructor
    · rw [checkLineBuffer_eq, completionCheck_fi, h1, hcap]
      exact (drain_values_stable line 9 .FORMTYPE_VALUE_FOUND _).2.2.2 (by decide)
    · rw [checkLineBuffer_eq]
      refine Nat.le_trans ?_ (completionCheck_mono _ _ _)
      rw [h1]
      exact drain_mono line 9 .FORMTYPE_VALUE_FOUND _

theorem same_line_drain_witness :
    ((checkLineBuffer
        (("name=\"_token\" name=\"_ceid\" name=\"checkit\" name=\"form_type\" value=\"XYZ\"").toList)
        .SEARCH_STRING_FOUND emptyFormInformation 0).2.1)._token =
      some (("XYZ").toList) ∧
    ((checkLineBuffer
        (("name=\"_token\" name=\"_ceid\" name=\"checkit\" name=\"form_type\" value=\"XYZ\"").toList)
        .TOKEN_VALUE_FOUND emptyFormInformation 0).2.1)._ceid =
      some (("XYZ").toList) ∧
    ((checkLineBuffer
        (("name=\"_token\" name=\"_ceid\" name=\"checkit\" name=\"form_type\" value=\"XYZ\"").toList)
        .CEID_VALUE_FOUND emptyFormInformation 0).2.1).checkit =
      some (("XYZ").toList) ∧
    ((checkLineBuffer
        (("name=\"_token\" name=\"_ceid\" name=\"checkit\" name=\"form_type\" value=\"XYZ\"").toList)
        .CHECKIT_VALUE_FOUND emptyFormInformation 0).2.1).form_type =
      some (("XYZ").toList) := by
  have h := same_line_drain
    (("name=\"_token\" name=\"_ceid\" name=\"checkit\" name=\"form_type\" value=\"XYZ\"").toList)
    emptyFormInformation 0 (by decide)
  exact ⟨(h.1 (by decide)).1.trans (by decide),
    (h.2.1 (by decide)).1.trans (by decide),
    (h.2.2.1 (by decide)).1.trans (by decide),
    (h.2.2.2.1 (by decide)).1.trans (by decide)⟩

/-- Claim C4 (unterminated value capture): in every value-capture state, when
the leftmost `value="` of the line has no closing quote anywhere after it, the
extractor captures exactly the remaining scanned text of the line and advances
to the corresponding value-found state. -/
theorem unterminated_value_capture (line : List Char) (fi : FormInformation)
    (p : Nat) (hp : findSub VALUE_FIELD_BEGINNING line = some p)
    (hq : (line.drop (p + VALUE_FIELD_BEGINNING_LEN)).all
      (fun ch => !(ch = '"')) = true) :
    stepLine line .TOKEN_FIELD_FOUND fi =
      (.TOKEN_VALUE_FOUND, ⟨some (line.drop (p + VALUE_FIELD_BEGINNING_LEN)),
        fi._ceid, fi.checkit, fi.form_type⟩) ∧
    stepLine line .CEID_FIELD_FOUND fi =
      (.CEID_VALUE_FOUND, ⟨fi._token, some (line.drop (p + VALUE_FIELD_BEGINNING_LEN)),
        fi.checkit, fi.form_type⟩) ∧
    stepLine line .CHECKIT_FIELD_FOUND fi =
      (.CHECKIT_VALUE_FOUND, ⟨fi._token, fi._ceid,
        some (line.drop (p + VALUE_FIELD_BEGINNING_LEN)), fi.form_type⟩) ∧
    stepLine line .FORMTYPE_FIELD_FOUND fi =
      (.FORMTYPE_VALUE_FOUND, ⟨fi._token, fi._ceid, fi.checkit,
        some (line.drop (p + VALUE_FIELD_BEGINNING_LEN))⟩) := by
  have hs : scanValue (line.drop (p + VALUE_FIELD_BEGINNING_LEN)) =
      line.drop (p + VALUE_FIELD_BEGINNING_LEN) := scanValue_of_noQuote _ hq
  refine ⟨?_, ?_, ?_, ?_⟩ <;> simp [stepLine, findValueField, hp, hs]

theorem unterminated_value_capture_witness :
    stepLine (("value=\"trunc").toList) .TOKEN_FIELD_FOUND
        emptyFormInformation =
      (.TOKEN_VALUE_FOUND, ⟨some (("trunc").toList), none, none, none⟩) := by
  have h := unterminated_value_capture (("value=\"trunc").toList)
    emptyFormInformation 0 (by decide) (by decide)
  exact h.1.trans (by decide)

/-- Claim C5 (write-once values): in a session started at the reset state,
once a field's value has been captured by some stream `a`, feeding any further
bytes `b` — re-matching markers and further `value="` occurrences included —
leaves the stored value unchanged. -/
theorem write_once_values (a b : List Char) (v : List Char) :
    (((feed resetState a).formInformation)._token = some v →
      ((feed resetState (a ++ b)).formInformation)._token = some v) ∧
    (((feed resetState a).formInformation)._ceid = some v →
      ((feed resetState (a ++ b)).formInformation)._ceid = some v) ∧
    (((feed resetState a).formInformation).checkit = some v →
      ((feed resetState (a ++ b)).formInformation).checkit = some v) ∧
    (((feed resetState a).formInformation).form_type = some v →
      ((feed resetState (a ++ b)).formInformation).form_type = some v) := by
  have hs := feed_StInv a resetState StInv_resetState
  have hk := feed_keep_values b (feed resetState a) hs
  rw [feed_append_chunks]
  exact ⟨fun h => hk.1 v h, fun h => hk.2.1 v h, fun h => hk.2.2.1 v h,
    fun h => hk.2.2.2 v h⟩

theorem write_once_values_witness :
    (((feed resetState
        ((("<form action=\"https://railnet.oebb.at/en/connecttoweb\">\n<input name=\"_token\" value=\"tok123\">\n<input name=\"_ceid\" value=\"ce9\">\n<input name=\"checkit\" value=\"1\">\n<input name=\"form_type\" value=\"login\">\n").toList) ++
          (("<input name=\"_token\" value=\"EVIL\">\n<input name=\"form_type\" value=\"EVIL\">\n").toList))).formInformation)._token =
      some (("tok123").toList)) ∧
    (((feed resetState
        ((("<form action=\"https://railnet.oebb.at/en/connecttoweb\">\n<input name=\"_token\" value=\"tok123\">\n<input name=\"_ceid\" value=\"ce9\">\n<input name=\"checkit\" value=\"1\">\n<input name=\"form_type\" value=\"login\">\n").toList) ++
          (("<input name=\"_token\" value=\"EVIL\">\n<input name=\"form_type\" value=\"EVIL\">\n").toList))).formInformation).form_type =
      some (("login").toList)) :=
  ⟨(write_once_values
      (("<form action=\"https://railnet.oebb.at/en/connecttoweb\">\n<input name=\"_token\" value=\"tok123\">\n<input name=\"_ceid\" value=\"ce9\">\n<input name=\"checkit\" value=\"1\">\n<input name=\"form_type\" value=\"login\">\n").toList)
      (("<input name=\"_token\" value=\"EVIL\">\n<input name=\"form_type\" value=\"EVIL\">\n").toList)
      (("tok123").toList)).1 (by decide),
   (write_once_values
      (("<form action=\"https://railnet.oebb.at/en/connecttoweb\">\n<input name=\"_token\" value=\"tok123\">\n<input name=\"_ceid\" value=\"ce9\">\n<input name=\"checkit\" value=\"1\">\n<input name=\"form_type\" value=\"login\">\n").toList)
      (("<input name=\"_token\" value=\"EVIL\">\n<input name=\"form_type\" value=\"EVIL\">\n").toList)
      (("login").toList)).2.2.2 (by decide)⟩

/-- Claim C6 (monotonic parser state): one pass of the switch either leaves
the state unchanged or moves it to a strictly later variant of the
eleven-variant order; a whole per-line invocation, and the processing of any
byte stream, never decrease the state's ordinal (the session reset excepted).
-/
theorem monotonic_parser_state (line : List Char) (ps : ParserState)
    (fi : FormInformation) (c : Nat) (s : ParserSt) (chunk : List Char) :
    ((stepLine line ps fi).1 = ps ∨
      ps.ord < ((stepLine line ps fi).1).ord) ∧
    ps.ord ≤ ((checkLineBuffer line ps fi c).1).ord ∧
    s.parserState.ord ≤ ((feed s chunk).parserState).ord :=
  ⟨stepLine_adv line ps fi, checkLineBuffer_mono line ps fi c,
    feed_mono chunk s⟩

/-- Claim C7 (bounded drain-loop termination): for every line and starting
state, fuel `LOOP_FUEL = 11` (the number of parser states) exhausts the
re-evaluate-same-line loop — more fuel changes nothing, and the result is a
fixed point of the switch body. -/
theorem drain_loop_terminates (line : List Char) (ps : ParserState)
    (fi : FormInformation) (k : Nat) :
    drain line (LOOP_FUEL + k) ps fi = drain line LOOP_FUEL ps fi ∧
    stepLine line ((drain line LOOP_FUEL ps fi).1)
        ((drain line LOOP_FUEL ps fi).2) =
      drain line LOOP_FUEL ps fi :=
  ⟨drain_eleven line k ps fi,
    drain_fixpoint line LOOP_FUEL ps fi (show 11 - ps.ord ≤ 11 by omega)⟩

/-- Claim C8 (reset contract): the session reset clears all four values,
returns the state to `PARSER_INIT`, and erases every trace of the prior
session — the whole state after reset is a constant, so any stream fed after
a reset behaves identically regardless of the prior session. -/
theorem reset_contract (s t : ParserSt) (fi : FormInformation)
    (chunk : List Char) :
    clearFormInformation fi = emptyFormInformation ∧
    sessionReset s = resetState ∧
    (sessionReset s).parserState = .PARSER_INIT ∧
    ((sessionReset s).formInformation)._token = none ∧
    ((sessionReset s).formInformation)._ceid = none ∧
    ((sessionReset s).formInformation).checkit = none ∧
    ((sessionReset s).formInformation).form_type = none ∧
    (sessionReset s).completions = 0 ∧
    feed (sessionReset s) chunk = feed (sessionReset t) chunk :=
  ⟨rfl, rfl, rfl, rfl, rfl, rfl, rfl, rfl, rfl⟩

/-- Claim C9 (leftmost-occurrence capture): the `value="` position used by the
capture is the leftmost occurrence on the line — it occurs there and at no
earlier position — and in each of the four value-capture states the stored
value is the scan starting right after that leftmost occurrence, independent
of where the field marker sits. -/
theorem leftmost_value_capture (line : List Char) (fi : FormInformation)
    (p : Nat) (hp : findSub VALUE_FIELD_BEGINNING line = some p) :
    occursAt VALUE_FIELD_BEGINNING line p = true ∧
    (∀ q, q < p → occursAt VALUE_FIELD_BEGINNING line q = false) ∧
    ((stepLine line .TOKEN_FIELD_FOUND fi).2)._token =
      some (scanValue (line.drop (p + VALUE_FIELD_BEGINNING_LEN))) ∧
    ((stepLine line .CEID_FIELD_FOUND fi).2)._ceid =
      some (scanValue (line.drop (p + VALUE_FIELD_BEGINNING_LEN))) ∧
    ((stepLine line .CHECKIT_FIELD_FOUND fi).2).checkit =
      some (scanValue (line.drop (p + VALUE_FIELD_BEGINNING_LEN))) ∧
    ((stepLine line .FORMTYPE_FIELD_FOUND fi).2).form_type =
      some (scanValue (line.drop (p + VALUE_FIELD_BEGINNING_LEN))) := by
  refine ⟨findSub_occurs _ _ _ hp, findSub_min _ _ _ hp, ?_, ?_, ?_, ?_⟩ <;>
    simp [stepLine, findValueField, hp]

theorem leftmost_value_capture_witness :
    occursAt VALUE_FIELD_BEGINNING
        (("value=\"early\" name=\"_token\" value=\"late\"").toList) 0 = true ∧
    ((stepLine (("value=\"early\" name=\"_token\" value=\"late\"").toList)
        .TOKEN_FIELD_FOUND emptyFormInformation).2)._token =
      some (("early").toList) := by
  have h := leftmost_value_capture
    (("value=\"early\" name=\"_token\" value=\"late\"").toList)
    emptyFormInformation 0 (by decide)
  exact ⟨h.1, h.2.2.1.trans (by decide)⟩

/-- Claim C10 (quote-free values): over any byte stream of a session started
at the reset state, none of the four captured values ever contains a
double-quote character. -/
theorem captured_values_quote_free (chunk : List Char) :
    noQuoteO (((feed resetState chunk).formInformation)._token) = true ∧
    noQuoteO (((feed resetState chunk).formInformation)._ceid) = true ∧
    noQuoteO (((feed resetState chunk).formInformation).checkit) = true ∧
    noQuoteO (((feed resetState chunk).formInformation).form_type) = true :=
  feed_QInv chunk resetState QInv_resetState

end Railnet
